import Mathlib

/-!
Verification of the hierarchical finite-state-machine (HFSM) framework of the
statechart repository against its natural-language specification.

The repository ships the framework's unit test (fsm_test.cpp) and a demo
(demo/clock/main.cpp); the framework header StateChart.h itself is not in the
source tree, so the framework components (State Registry, Active Chain,
Transition Planner, Event Dispatcher, Machine Facade) are modelled from the
specification, and the concrete state tree of the unit test (state1 and state2
roots, state3 a child of state1) is used as the running example.
-/

/-- State identifiers are drawn from a user enumeration; we embed them as
naturals. -/
abbrev StateId := Nat

/-- Observable side effects of the Active Chain: an entry effect runs when a
StateInstance is constructed, an exit effect when it is destroyed. -/
inductive Effect where
  | enter (s : StateId)
  | exit (s : StateId)
deriving DecidableEq, Repr

/-- Modelled from the spec: the State Registry is a catalog mapping each
registered identifier to its optional parent identifier (factory and label are
represented by the identifier itself). -/
abbrev Registry := List (StateId × Option StateId)

/-- Look up the parent entry of a registered identifier: `none` when the id is
unknown, `some none` for a root, `some (some p)` for a child of `p`. -/
def lookupParent (reg : Registry) (id : StateId) : Option (Option StateId) :=
  (reg.find? (fun e => e.fst == id)).map Prod.snd

/-- Modelled from the spec: `ancestors` follows `parent` links from `id`
upward, reversing the collected list; a traversal that does not terminate
within the fuel bound (a cycle) or an unknown id yields `none`. -/
def ancestorsFuel (reg : Registry) : Nat → StateId → Option (List StateId)
  | 0, _ => none
  | fuel + 1, id =>
    match lookupParent reg id with
    | none => none
    | some none => some [id]
    | some (some p) => (ancestorsFuel reg fuel p).map (fun l => l ++ [id])

/-- The root-to-`id` ancestor path (inclusive); `none` on unknown state or
cycle. A genuine parent chain visits distinct registered ids, so fuel
`reg.length + 1` suffices for every acyclic case. -/
def ancestors (reg : Registry) (id : StateId) : Option (List StateId) :=
  ancestorsFuel reg (reg.length + 1) id

/-- Length of the longest common prefix of two identifier sequences. -/
def lcpLen : List StateId → List StateId → Nat
  | a :: as, b :: bs => if a = b then lcpLen as bs + 1 else 0
  | _, _ => 0

/-- Modelled from the spec: the Transition Planner. With `A = ancestors src`,
`B = ancestors dst` and `k` the longest-common-prefix length, the planner
returns `(len A - k, B[k..])`, except that when `dst` would still be on the
chain after the exits (`k = len B`, i.e. `dst` is `src` or an ancestor of
`src`) it additionally exits `dst` and re-enters it (self-transition
semantics). -/
def plan (reg : Registry) (src dst : StateId) : Option (Nat × List StateId) :=
  match ancestors reg src, ancestors reg dst with
  | some A, some B =>
    let k := lcpLen A B
    if k = B.length then some (A.length - k + 1, [dst])
    else some (A.length - k, B.drop k)
  | _, _ => none

/-- Modelled from the spec: applying a transition on an Active Chain (ids
root to leaf). The top `exitCount` instances are destroyed leaf-first (exit
effects in reverse-entry order), then the `enterPath` instances are
constructed root-first (entry effects in order). Returns the new chain and
the effect trace; `none` when the chain is empty or the planner fails (a
transition error leaves the chain untouched at the caller). -/
def applyTransition (reg : Registry) (chain : List StateId) (dst : StateId) :
    Option (List StateId × List Effect) :=
  match chain.getLast? with
  | none => none
  | some src =>
    match plan reg src dst with
    | none => none
    | some (ec, ep) =>
      let keep := chain.take (chain.length - ec)
      let exited := (chain.drop (chain.length - ec)).reverse
      some (keep ++ ep, exited.map Effect.exit ++ ep.map Effect.enter)

/-- Result of one handler call: whether the event was consumed, the updated
user FSM data, the transition target requested during the call (the last
`transition(...)` call of the handler wins), and the events the handler
posted. -/
structure HRes (Ev D : Type) where
  consumed : Bool
  data : D
  trans : Option StateId
  posted : List Ev
deriving DecidableEq, Repr

/-- Behaviour of the user's state classes: for a state id, an event and the
current user FSM data, the `event` member's observable result. -/
abbrev Handler (Ev D : Type) := StateId → Ev → D → HRes Ev D

/-- Modelled from the spec: the Machine Facade. It owns the Registry, the
Active Chain (ids root to leaf), the PendingEvents queue, the started flag and
the user-supplied FSM data record. -/
structure Machine (Ev D : Type) where
  reg : Registry
  chain : List StateId
  queue : List Ev
  started : Bool
  data : D
deriving DecidableEq, Repr

/-- Errors of the framework surface. -/
inductive FsmError where
  | duplicateState
  | unknownState
  | alreadyStarted
deriving DecidableEq, Repr

/-- Modelled from the spec: the ancestor walk of one event dispatch. The
snapshot is given leaf to root; each level's handler runs, and the walk stops
as soon as a handler returns Consumed, a transition has been requested, or the
root has been visited. Returns the per-call records in call order. -/
def walkAux (hnd : Handler Ev D) (ev : Ev) :
    List StateId → D → List (StateId × HRes Ev D)
  | [], _ => []
  | s :: rest, d =>
    if (hnd s ev d).consumed || (hnd s ev d).trans.isSome then [(s, hnd s ev d)]
    else (s, hnd s ev d) :: walkAux hnd ev rest (hnd s ev d).data

/-- The handler call sequence of a walk. -/
def walkCalls (w : List (StateId × HRes Ev D)) : List StateId :=
  w.map Prod.fst

/-- The user FSM data after a walk. -/
def walkFinalData (d : D) (w : List (StateId × HRes Ev D)) : D :=
  match w.getLast? with
  | none => d
  | some p => p.snd.data

/-- The pending transition target after a walk (only the last handler of the
walk can have set one, since a request stops the walk). -/
def walkTrans (w : List (StateId × HRes Ev D)) : Option StateId :=
  match w.getLast? with
  | none => none
  | some p => p.snd.trans

/-- All events posted during a walk, in post order. -/
def walkPosted (w : List (StateId × HRes Ev D)) : List Ev :=
  (w.map (fun p => p.snd.posted)).flatten

/-- Apply one effect to the user FSM data, given the data action of each
state's entry and exit effect. -/
def effApply (onEnter onExit : StateId → D → D) : Effect → D → D
  | Effect.enter s, d => onEnter s d
  | Effect.exit s, d => onExit s d

/-- Run an effect trace over the user FSM data. -/
def runEffects (onEnter onExit : StateId → D → D) (tr : List Effect) (d : D) : D :=
  tr.foldl (fun x e => effApply onEnter onExit e x) d

/-- Result of dispatching: the machine afterwards, the entry/exit effect
trace, and the handler call sequence. -/
structure DispatchOut (Ev D : Type) where
  m : Machine Ev D
  trace : List Effect
  calls : List StateId
deriving DecidableEq, Repr

/-- The machine right after an ancestor walk, before any transition is
applied: the walk's final user data is stored and the walk's posted events
are appended to PendingEvents. -/
def afterWalk (m : Machine Ev D) (w : List (StateId × HRes Ev D)) :
    Machine Ev D :=
  { m with data := walkFinalData m.data w, queue := m.queue ++ walkPosted w }

/-- Modelled from the spec: dispatch of one event. The Active Chain's
identifier sequence is snapshotted, the walk runs leaf to root, posted events
are appended to PendingEvents, and a transition requested during the walk is
applied after the walk finishes; a planner failure (bad target) leaves the
chain as if no transition had been requested. -/
def dispatchOne (hnd : Handler Ev D) (onEnter onExit : StateId → D → D)
    (m : Machine Ev D) (ev : Ev) : DispatchOut Ev D :=
  match walkTrans (walkAux hnd ev m.chain.reverse m.data) with
  | none =>
    ⟨afterWalk m (walkAux hnd ev m.chain.reverse m.data), [],
      walkCalls (walkAux hnd ev m.chain.reverse m.data)⟩
  | some dst =>
    match applyTransition m.reg m.chain dst with
    | none =>
      ⟨afterWalk m (walkAux hnd ev m.chain.reverse m.data), [],
        walkCalls (walkAux hnd ev m.chain.reverse m.data)⟩
    | some (c2, tr) =>
      ⟨{ afterWalk m (walkAux hnd ev m.chain.reverse m.data) with
          chain := c2,
          data := runEffects onEnter onExit tr
            (walkFinalData m.data (walkAux hnd ev m.chain.reverse m.data)) },
        tr, walkCalls (walkAux hnd ev m.chain.reverse m.data)⟩

/-- Modelled from the spec: drain the PendingEvents queue in FIFO order,
dispatching one event at a time; fuel bounds the number of dispatches (user
configurations may post without bound). -/
def drain (hnd : Handler Ev D) (onEnter onExit : StateId → D → D) :
    Nat → Machine Ev D → Machine Ev D × List Effect
  | 0, m => (m, [])
  | fuel + 1, m =>
    match m.queue with
    | [] => (m, [])
    | ev :: rest =>
      ((drain hnd onEnter onExit fuel
          (dispatchOne hnd onEnter onExit { m with queue := rest } ev).m).fst,
        (dispatchOne hnd onEnter onExit { m with queue := rest } ev).trace ++
          (drain hnd onEnter onExit fuel
            (dispatchOne hnd onEnter onExit { m with queue := rest } ev).m).snd)

/-- Modelled from the spec: `post(event)` appends the event to PendingEvents
and drains the queue. -/
def postEvent (hnd : Handler Ev D) (onEnter onExit : StateId → D → D)
    (fuel : Nat) (m : Machine Ev D) (ev : Ev) : Machine Ev D × List Effect :=
  drain hnd onEnter onExit fuel { m with queue := m.queue ++ [ev] }

/-- Modelled from the spec: `setStart(id)` constructs the full ancestor chain
of `id` root-first (entry effects in root-to-leaf order); fails with
AlreadyStarted on a second call and UnknownState on an unregistered id. -/
def setStart (m : Machine Ev D) (id : StateId) :
    Except FsmError (Machine Ev D × List Effect) :=
  if m.started then .error .alreadyStarted
  else
    match ancestors m.reg id with
    | none => .error .unknownState
    | some l => .ok ({ m with chain := l, started := true }, l.map Effect.enter)

/-- The currently active leaf state identifier, when the machine is started. -/
def currentLeafId (m : Machine Ev D) : Option StateId :=
  m.chain.getLast?

/-- The Active Chain invariant: the identifier sequence equals the ancestor
path of some registered leaf in the Registry (roots first). -/
def ChainOk (reg : Registry) (chain : List StateId) : Prop :=
  ∃ id, ancestors reg id = some chain

/-- Modelled from the spec: `addState` records a descriptor in the Registry;
it fails with DuplicateState if the id is already registered and constructs no
StateInstance. -/
def addState (reg : Registry) (id : StateId) (par : Option StateId) :
    Except FsmError Registry :=
  if (reg.map Prod.fst).contains id then .error .duplicateState
  else .ok (reg ++ [(id, par)])

/-- Register a list of state declarations in order. -/
def buildReg : Registry → List (StateId × Option StateId) →
    Except FsmError Registry
  | reg, [] => .ok reg
  | reg, (id, par) :: rest =>
    match addState reg id par with
    | .error e => .error e
    | .ok reg2 => buildReg reg2 rest

/-- Modelled from the spec: machine construction runs the user's setup
routine, which registers every state via `addState`; no state is constructed,
so the construction effect trace is empty and the Active Chain starts empty. -/
def buildFsm (Ev : Type) {D : Type} (decls : List (StateId × Option StateId))
    (d0 : D) : Except FsmError (Machine Ev D × List Effect) :=
  match buildReg [] decls with
  | .error e => .error e
  | .ok reg =>
    .ok ({ reg := reg, chain := [], queue := [], started := false, data := d0 }, [])

/-- Modelled from the spec: the entry phase of a transition with fallible
construction. States of the path are entered in order; if constructing one
fails, every already-entered state of the current entry suffix is exited
leaf-first before the error is surfaced (`false` result). -/
def enterChain (canEnter : StateId → Bool) : List StateId → List Effect × Bool
  | [] => ([], true)
  | s :: rest =>
    if canEnter s then
      let p := enterChain canEnter rest
      (Effect.enter s :: (if p.snd then p.fst else p.fst ++ [Effect.exit s]), p.snd)
    else ([], false)

/-- The state tree of the unit test fixture: state1 (0) and state2 (1) are
roots, state3 (2) is a child of state1. -/
def regT : Registry := [(0, none), (1, none), (2, some 0)]

/-- The observable data of the unit test fixture: the file-scope testData and
the FSM fields testD2 and testD3. -/
structure TData where
  tD : Int
  t2 : Int
  t3 : Int
deriving DecidableEq, Repr

/-- Entry-effect data actions of the fixture's constructors: TestState1 sets
testData to 0, TestState2 to 5, TestState3 to 15. -/
def onEnterT (s : StateId) (d : TData) : TData :=
  if s = 0 then { d with tD := 0 }
  else if s = 1 then { d with tD := 5 }
  else if s = 2 then { d with tD := 15 }
  else d

/-- Exit-effect data actions of the fixture's destructors: TestState1 sets
testData to 10, TestState2 to 11, TestState3 to 111. -/
def onExitT (s : StateId) (d : TData) : TData :=
  if s = 0 then { d with tD := 10 }
  else if s = 1 then { d with tD := 11 }
  else if s = 2 then { d with tD := 111 }
  else d

/-- The event member functions of the fixture's three state classes (events
are 1, 2, 3 for testEvent1, testEvent2, testEvent3); every handler returns
NotConsumed (false). -/
def hndT : Handler Nat TData := fun s ev d =>
  if s = 0 then
    { consumed := false, data := { d with tD := 1 },
      trans := if ev = 1 then some 1 else if ev = 3 then some 2 else none,
      posted := [] }
  else if s = 1 then
    if ev = 1 then
      { consumed := false, data := { d with tD := 9 }, trans := some 0, posted := [] }
    else if ev = 2 then
      { consumed := false, data := { d with tD := 15, t2 := 2 }, trans := none, posted := [] }
    else if ev = 3 then
      { consumed := false, data := { d with tD := 9 }, trans := some 2, posted := [] }
    else
      { consumed := false, data := { d with tD := 9 }, trans := none, posted := [] }
  else if s = 2 then
    if ev = 1 then
      { consumed := false, data := { d with tD := 19 }, trans := some 0, posted := [] }
    else if ev = 2 then
      { consumed := false, data := { d with tD := 115, t3 := 3 }, trans := none, posted := [] }
    else
      { consumed := false, data := { d with tD := 19 }, trans := none, posted := [] }
  else
    { consumed := false, data := d, trans := none, posted := [] }

/-- The machine of the unit test right after construction. -/
def mT0 : Machine Nat TData :=
  { reg := regT, chain := [], queue := [], started := false,
    data := { tD := -1, t2 := -2, t3 := -3 } }

/-- The machine of the unit test after setStartState(state1), entry effects
applied. -/
def mT1 : Machine Nat TData :=
  { mT0 with chain := [0], started := true,
             data := { tD := 0, t2 := -2, t3 := -3 } }

/-- Shorthand for a post step on the fixture machine. -/
def postT (m : Machine Nat TData) (ev : Nat) : Machine Nat TData :=
  (postEvent hndT onEnterT onExitT 4 m ev).fst

example : ancestors regT 0 = some [0] := by decide
example : ancestors regT 1 = some [1] := by decide
example : ancestors regT 2 = some [0, 2] := by decide
example : ancestors regT 3 = none := by decide
example : plan regT 0 1 = some (1, [1]) := by decide
example : plan regT 0 2 = some (0, [2]) := by decide
example : plan regT 2 0 = some (2, [0]) := by decide
example : plan regT 0 0 = some (1, [0]) := by decide
example : applyTransition regT [0, 2] 0 =
    some ([0], [Effect.exit 2, Effect.exit 0, Effect.enter 0]) := by decide
example : applyTransition regT [0] 2 =
    some ([0, 2], [Effect.enter 2]) := by decide

example : buildFsm Nat [(0, none), (1, none), (2, some 0)] mT0.data =
    .ok (mT0, []) := by rfl
example :
    (setStart mT0 0).map
      (fun p => (p.fst.chain, p.snd, runEffects onEnterT onExitT p.snd mT0.data)) =
    .ok ([0], [Effect.enter 0], mT1.data) := by rfl
example : (postT mT1 2).data.tD = 1 := by decide
example : ((postT mT1 2).chain, (postT (postT mT1 2) 1).chain) = ([0], [1]) := by decide
example : (postT (postT mT1 2) 1).data = { tD := 5, t2 := -2, t3 := -3 } := by decide
example : (postT (postT (postT mT1 2) 1) 2).data =
    { tD := 15, t2 := 2, t3 := -3 } := by decide
example : (postT (postT (postT (postT mT1 2) 1) 2) 1).data =
    { tD := 0, t2 := 2, t3 := -3 } := by decide
example : (postT (postT (postT (postT (postT mT1 2) 1) 2) 1) 3).data.tD = 15 := by decide
example : (postT (postT (postT (postT (postT mT1 2) 1) 2) 1) 3).chain = [0, 2] := by decide
example :
    (postT (postT (postT (postT (postT (postT mT1 2) 1) 2) 1) 3) 2).data =
    { tD := 1, t2 := 2, t3 := 3 } := by decide

/-! ### Basic facts about ancestor paths -/

/-- An ancestor path ends in the id it was computed for. -/
theorem ancestorsFuel_getLast (reg : Registry) :
    ∀ (fuel : Nat) (id : StateId) (L : List StateId),
      ancestorsFuel reg fuel id = some L → L.getLast? = some id := by
  intro fuel
  induction fuel with
  | zero => intro id L h; simp [ancestorsFuel] at h
  | succ f ih =>
    intro id L h
    unfold ancestorsFuel at h
    cases hp : lookupParent reg id with
    | none => rw [hp] at h; simp at h
    | some par =>
      rw [hp] at h
      cases par with
      | none =>
        simp at h
        subst h
        rfl
      | some p =>
        simp at h
        obtain ⟨Lp, hLp, hcat⟩ := h
        subst hcat
        simp

/-- An ancestor path is nonempty. -/
theorem ancestorsFuel_ne_nil (reg : Registry) (fuel : Nat) (id : StateId)
    (L : List StateId) (h : ancestorsFuel reg fuel id = some L) : L ≠ [] := by
  intro hnil
  have := ancestorsFuel_getLast reg fuel id L h
  rw [hnil] at this
  simp at this

/-- More fuel never changes a successful ancestor computation. -/
theorem ancestorsFuel_mono (reg : Registry) :
    ∀ (f g : Nat), f ≤ g → ∀ (id : StateId) (L : List StateId),
      ancestorsFuel reg f id = some L → ancestorsFuel reg g id = some L := by
  intro f
  induction f with
  | zero => intro g _ id L h; simp [ancestorsFuel] at h
  | succ f ih =>
    intro g hg id L h
    match g, hg with
    | g + 1, hg =>
      unfold ancestorsFuel at h ⊢
      cases hp : lookupParent reg id with
      | none => rw [hp] at h; simp at h
      | some par =>
        rw [hp] at h
        cases par with
        | none => exact h
        | some p =>
          simp at h
          obtain ⟨Lp, hLp, hcat⟩ := h
          simp
          exact ⟨Lp, ih g (Nat.le_of_succ_le_succ hg) p Lp hLp, hcat⟩

/-- Determinism along an ancestor path: the prefix ending at position `i` is
exactly the ancestor path of the element at position `i`. -/
theorem ancestorsFuel_take (reg : Registry) :
    ∀ (fuel : Nat) (id : StateId) (L : List StateId),
      ancestorsFuel reg fuel id = some L →
      ∀ (i : Nat) (hi : i < L.length),
        ancestorsFuel reg fuel (L.get ⟨i, hi⟩) = some (L.take (i + 1)) := by
  intro fuel
  induction fuel with
  | zero => intro id L h; simp [ancestorsFuel] at h
  | succ f ih =>
    intro id L h i hi
    have hstep := h
    unfold ancestorsFuel at hstep
    cases hp : lookupParent reg id with
    | none => rw [hp] at hstep; simp at hstep
    | some par =>
      rw [hp] at hstep
      cases par with
      | none =>
        simp at hstep
        subst hstep
        have hz : i = 0 := by simpa using hi
        subst hz
        simpa using h
      | some p =>
        simp at hstep
        obtain ⟨Lp, hLp, hcat⟩ := hstep
        subst hcat
        rcases Nat.lt_or_ge i Lp.length with hlt | hge
        · have hget : (Lp ++ [id]).get ⟨i, hi⟩ = Lp.get ⟨i, hlt⟩ := by
            rw [List.get_eq_getElem, List.get_eq_getElem]
            exact List.getElem_append_left hlt
          rw [hget]
          have := ih p Lp hLp i hlt
          have hmono := ancestorsFuel_mono reg f (f + 1) (Nat.le_succ f)
            (Lp.get ⟨i, hlt⟩) (Lp.take (i + 1)) this
          rw [hmono]
          congr 1
          rw [List.take_append_of_le_length (by omega)]
        · have hieq : i = Lp.length := by
            have : i < Lp.length + 1 := by simpa using hi
            omega
          subst hieq
          have hget : (Lp ++ [id]).get ⟨Lp.length, hi⟩ = id := by
            simp
          rw [hget]
          have htake : (Lp ++ [id]).take (Lp.length + 1) = Lp ++ [id] := by
            apply List.take_of_length_le
            simp
          rw [htake]
          exact h

/-- An ancestor path has no duplicate identifier. -/
theorem ancestorsFuel_nodup (reg : Registry) :
    ∀ (fuel : Nat) (id : StateId) (L : List StateId),
      ancestorsFuel reg fuel id = some L → L.Nodup := by
  intro fuel
  induction fuel with
  | zero => intro id L h; simp [ancestorsFuel] at h
  | succ f ih =>
    intro id L h
    have hstep := h
    unfold ancestorsFuel at hstep
    cases hp : lookupParent reg id with
    | none => rw [hp] at hstep; simp at hstep
    | some par =>
      rw [hp] at hstep
      cases par with
      | none =>
        simp at hstep
        subst hstep
        simp
      | some p =>
        simp at hstep
        obtain ⟨Lp, hLp, hcat⟩ := hstep
        subst hcat
        have hnodup : Lp.Nodup := ih p Lp hLp
        have hnotmem : id ∉ Lp := by
          intro hmem
          obtain ⟨i, hi, hget⟩ := List.getElem_of_mem hmem
          have htk := ancestorsFuel_take reg f p Lp hLp i hi
          rw [List.get_eq_getElem, hget] at htk
          have hmono := ancestorsFuel_mono reg f (f + 1) (Nat.le_succ f) id
            (Lp.take (i + 1)) htk
          rw [h] at hmono
          have heq : Lp ++ [id] = Lp.take (i + 1) := Option.some_inj.mp hmono
          have hlen := congrArg List.length heq
          simp at hlen
          omega
        simp [List.nodup_append]
        exact ⟨hnodup, hnotmem⟩

/-- Nonemptiness and leaf identity for `ancestors`. -/
theorem ancestors_getLast (reg : Registry) (id : StateId) (L : List StateId)
    (h : ancestors reg id = some L) : L.getLast? = some id :=
  ancestorsFuel_getLast reg (reg.length + 1) id L h

/-- An `ancestors` result is nonempty. -/
theorem ancestors_ne_nil (reg : Registry) (id : StateId) (L : List StateId)
    (h : ancestors reg id = some L) : L ≠ [] :=
  ancestorsFuel_ne_nil reg (reg.length + 1) id L h

/-- An `ancestors` result has no duplicate identifier. -/
theorem ancestors_nodup (reg : Registry) (id : StateId) (L : List StateId)
    (h : ancestors reg id = some L) : L.Nodup :=
  ancestorsFuel_nodup reg (reg.length + 1) id L h

/-! ### Longest-common-prefix facts -/

/-- The common-prefix length is bounded by the first list's length. -/
theorem lcpLen_le_left : ∀ (A B : List StateId), lcpLen A B ≤ A.length := by
  intro A
  induction A with
  | nil => intro B; cases B <;> simp [lcpLen]
  | cons a as ih =>
    intro B
    cases B with
    | nil => simp [lcpLen]
    | cons b bs =>
      simp only [lcpLen]
      split
      · simpa using ih bs
      · simp

/-- The common-prefix length is bounded by the second list's length. -/
theorem lcpLen_le_right : ∀ (A B : List StateId), lcpLen A B ≤ B.length := by
  intro A
  induction A with
  | nil => intro B; cases B <;> simp [lcpLen]
  | cons a as ih =>
    intro B
    cases B with
    | nil => simp [lcpLen]
    | cons b bs =>
      simp only [lcpLen]
      split
      · simpa using ih bs
      · simp

/-- Up to the common-prefix length the two lists agree. -/
theorem take_lcpLen_eq : ∀ (A B : List StateId),
    A.take (lcpLen A B) = B.take (lcpLen A B) := by
  intro A
  induction A with
  | nil => intro B; cases B <;> simp [lcpLen]
  | cons a as ih =>
    intro B
    cases B with
    | nil => simp [lcpLen]
    | cons b bs =>
      simp only [lcpLen]
      split
      · rename_i heq
        subst heq
        simp [List.take_succ_cons, ih bs]
      · simp

/-- A list shares its whole length with itself. -/
theorem lcpLen_self : ∀ (A : List StateId), lcpLen A A = A.length := by
  intro A
  induction A with
  | nil => simp [lcpLen]
  | cons a as ih => simp [lcpLen, ih]

/-- If `B` is a prefix of `A` then the common prefix is all of `B`. -/
theorem lcpLen_of_take_eq : ∀ (B A : List StateId),
    B = A.take B.length → lcpLen A B = B.length := by
  intro B
  induction B with
  | nil => intro A _; cases A <;> simp [lcpLen]
  | cons b bs ih =>
    intro A h
    cases A with
    | nil => simp at h
    | cons a as =>
      simp only [List.length_cons, List.take_succ_cons, List.cons.injEq] at h
      obtain ⟨hb, hbs⟩ := h
      subst hb
      simp [lcpLen, ih as hbs]

/-- Dropping all but the last element of a list leaves the last element. -/
theorem drop_pred_of_getLast (L : List StateId) (x : StateId)
    (h : L.getLast? = some x) : L.drop (L.length - 1) = [x] := by
  induction L with
  | nil => simp at h
  | cons a t ih =>
    cases t with
    | nil =>
      simp at h
      subst h
      rfl
    | cons b t2 =>
      rw [List.getLast?_cons_cons] at h
      have hd := ih h
      have hlen : (a :: b :: t2).length - 1 = (b :: t2).length := by simp
      rw [hlen]
      simpa using hd

/-- A list is its first part plus its last element. -/
theorem take_pred_append_getLast (L : List StateId) (x : StateId)
    (h : L.getLast? = some x) : L.take (L.length - 1) ++ [x] = L := by
  conv_rhs => rw [← List.take_append_drop (L.length - 1) L]
  rw [drop_pred_of_getLast L x h]

/-- The common-prefix length is symmetric. -/
theorem lcpLen_comm : ∀ (A B : List StateId), lcpLen A B = lcpLen B A := by
  intro A
  induction A with
  | nil => intro B; cases B <;> simp [lcpLen]
  | cons a as ih =>
    intro B
    cases B with
    | nil => simp [lcpLen]
    | cons b bs =>
      simp only [lcpLen]
      by_cases h : a = b
      · subst h
        simp [ih bs]
      · rw [if_neg h, if_neg (fun hh => h hh.symm)]

/-! ### Unfolding equations for the planner and transition application -/

/-- The planner's value once both ancestor paths are known. -/
theorem plan_eq (reg : Registry) (src dst : StateId) (A B : List StateId)
    (hA : ancestors reg src = some A) (hB : ancestors reg dst = some B) :
    plan reg src dst =
      if lcpLen A B = B.length then some (A.length - lcpLen A B + 1, [dst])
      else some (A.length - lcpLen A B, B.drop (lcpLen A B)) := by
  unfold plan
  rw [hA, hB]

/-- The planner fails when the target is unknown. -/
theorem plan_eq_none (reg : Registry) (src dst : StateId)
    (hB : ancestors reg dst = none) : plan reg src dst = none := by
  unfold plan
  rw [hB]
  cases ancestors reg src <;> rfl

/-- Transition application once the leaf and the plan are known. -/
theorem applyTransition_eq (reg : Registry) (chain : List StateId)
    (src dst : StateId) (ec : Nat) (ep : List StateId)
    (hlast : chain.getLast? = some src)
    (hplan : plan reg src dst = some (ec, ep)) :
    applyTransition reg chain dst =
      some (chain.take (chain.length - ec) ++ ep,
        ((chain.drop (chain.length - ec)).reverse).map Effect.exit ++
          ep.map Effect.enter) := by
  unfold applyTransition
  simp only [hlast, hplan]

/-- Transition application fails on an empty chain. -/
theorem applyTransition_eq_none (reg : Registry) (dst : StateId)
    (chain : List StateId) (hlast : chain.getLast? = none) :
    applyTransition reg chain dst = none := by
  unfold applyTransition
  simp only [hlast]

/-- Transition application fails when the planner does. -/
theorem applyTransition_eq_none_plan (reg : Registry) (chain : List StateId)
    (src dst : StateId) (hlast : chain.getLast? = some src)
    (hplan : plan reg src dst = none) :
    applyTransition reg chain dst = none := by
  unfold applyTransition
  simp only [hlast, hplan]

/-! ### The applied transition rebuilds the ancestor path of the target -/

/-- Applying a transition on a chain that is the ancestor path of its leaf
yields exactly the ancestor path of the target. -/
theorem applyTransition_ancestors (reg : Registry) (chain : List StateId)
    (leaf dst : StateId) (c2 : List StateId) (tr : List Effect)
    (hA : ancestors reg leaf = some chain)
    (h : applyTransition reg chain dst = some (c2, tr)) :
    ancestors reg dst = some c2 := by
  have hlast : chain.getLast? = some leaf := ancestors_getLast reg leaf chain hA
  cases hB : ancestors reg dst with
  | none =>
    rw [applyTransition_eq_none_plan reg chain leaf dst hlast
      (plan_eq_none reg leaf dst hB)] at h
    exact absurd h (by simp)
  | some B =>
    have hkA : lcpLen chain B ≤ chain.length := lcpLen_le_left chain B
    have hkB : lcpLen chain B ≤ B.length := lcpLen_le_right chain B
    have hBne : B ≠ [] := ancestors_ne_nil reg dst B hB
    have hBlast : B.getLast? = some dst := ancestors_getLast reg dst B hB
    by_cases hk : lcpLen chain B = B.length
    · have hplan : plan reg leaf dst =
          some (chain.length - lcpLen chain B + 1, [dst]) := by
        rw [plan_eq reg leaf dst chain B hA hB, if_pos hk]
      rw [applyTransition_eq reg chain leaf dst _ _ hlast hplan] at h
      simp only [Option.some_inj, Prod.mk.injEq] at h
      have hBpos : 1 ≤ B.length := by
        cases B with
        | nil => exact absurd rfl hBne
        | cons x xs => simp
      have hsub : chain.length - (chain.length - lcpLen chain B + 1) =
          lcpLen chain B - 1 := by omega
      have hBeq : B = chain.take (lcpLen chain B) := by
        have := take_lcpLen_eq chain B
        rw [hk] at this ⊢
        rw [this, List.take_of_length_le (le_refl B.length)]
      have htk : chain.take (lcpLen chain B - 1) = B.take (B.length - 1) := by
        have h1 : B.take (B.length - 1) =
            (chain.take (lcpLen chain B)).take (B.length - 1) := by
          rw [← hBeq]
        rw [h1, List.take_take]
        congr 1
        omega
      have hc2 : c2 = B := by
        rw [← h.1, hsub, htk, take_pred_append_getLast B dst hBlast]
      rw [hc2]
    · have hplan : plan reg leaf dst =
          some (chain.length - lcpLen chain B, B.drop (lcpLen chain B)) := by
        rw [plan_eq reg leaf dst chain B hA hB, if_neg hk]
      rw [applyTransition_eq reg chain leaf dst _ _ hlast hplan] at h
      simp only [Option.some_inj, Prod.mk.injEq] at h
      have hsub : chain.length - (chain.length - lcpLen chain B) =
          lcpLen chain B := by omega
      have hc2 : c2 = B := by
        rw [← h.1, hsub, take_lcpLen_eq chain B, List.take_append_drop]
      rw [hc2]

/-! ### Claim C1: the planner's longest-common-prefix formula -/

/-- Claim C1 as frozen fails on a self-transition: at the fixture's root
state1, `ancestors` gives `[0]` and the longest common prefix with itself has
length 1, so the claimed formula demands `exitCount = 0` and an empty
`enterPath`, but the planner returns `exitCount = 1`, `enterPath = [0]`
(self-transition semantics). -/
theorem C1_counterexample :
    ancestors regT 0 = some [0] ∧
    lcpLen [0] [0] = ([0] : List StateId).length ∧
    plan regT 0 0 = some (1, [0]) ∧
    plan regT 0 0 ≠
      some (([0] : List StateId).length - lcpLen [0] [0],
        ([0] : List StateId).drop (lcpLen [0] [0])) := by decide

/-- Claim C1 (amended): for every pair of registered identifiers whose
ancestor paths `A` and `B` have longest-common-prefix length `k < len B`
(that is, `to` is neither `from` nor an ancestor of `from`), the planner
returns `exitCount = len A - k` and `enterPath = B[k..]`; in particular when
`to` is a proper descendant of `from` (so `A` is a proper prefix of `B`),
`exitCount = 0` and `enterPath` is the strictly-descendant path, so no state
currently on the chain is exited. -/
theorem C1_plan_lcp_formula (reg : Registry) (src dst : StateId)
    (A B : List StateId) (hA : ancestors reg src = some A)
    (hB : ancestors reg dst = some B) (hk : lcpLen A B < B.length) :
    plan reg src dst = some (A.length - lcpLen A B, B.drop (lcpLen A B)) ∧
    (B.take A.length = A →
      A.length - lcpLen A B = 0 ∧ B.drop (lcpLen A B) = B.drop A.length) := by
  constructor
  · rw [plan_eq reg src dst A B hA hB, if_neg (Nat.ne_of_lt hk)]
  · intro hpre
    have hAk : lcpLen A B = A.length := by
      rw [lcpLen_comm]
      exact lcpLen_of_take_eq A B hpre.symm
    exact ⟨by omega, by rw [hAk]⟩

/-- Witness for C1 (amended) at the fixture: from state1 to its child
state3. -/
theorem C1_plan_lcp_formula_witness :
    plan regT 0 2 =
      some (([0] : List StateId).length - lcpLen [0] [0, 2],
        ([0, 2] : List StateId).drop (lcpLen [0] [0, 2])) ∧
    (([0, 2] : List StateId).take ([0] : List StateId).length = [0] →
      ([0] : List StateId).length - lcpLen [0] [0, 2] = 0 ∧
      ([0, 2] : List StateId).drop (lcpLen [0] [0, 2]) =
        ([0, 2] : List StateId).drop ([0] : List StateId).length) :=
  C1_plan_lcp_formula regT 0 2 [0] [0, 2] (by decide) (by decide) (by decide)

/-! ### Claim C5: self-transition semantics -/

/-- Claim C5: for every registered state `A`, a self-transition `A → A` is
planned as `exitCount = 1`, `enterPath = [A]`, and applying it on the chain
whose leaf is `A` runs exactly one exit effect of `A` followed by exactly one
entry effect of `A`, leaving the chain unchanged: no other state is exited or
entered. -/
theorem C5_self_transition (reg : Registry) (A : StateId) (chain : List StateId)
    (hA : ancestors reg A = some chain) :
    plan reg A A = some (1, [A]) ∧
    applyTransition reg chain A =
      some (chain, [Effect.exit A, Effect.enter A]) := by
  have hplan : plan reg A A = some (1, [A]) := by
    rw [plan_eq reg A A chain chain hA hA, lcpLen_self chain, if_pos rfl]
    simp
  refine ⟨hplan, ?_⟩
  have hlast : chain.getLast? = some A := ancestors_getLast reg A chain hA
  rw [applyTransition_eq reg chain A A 1 [A] hlast hplan,
    drop_pred_of_getLast chain A hlast,
    take_pred_append_getLast chain A hlast]
  rfl

/-- Witness for C5 at the fixture: self-transition of state3 on the chain
state1, state3. -/
theorem C5_self_transition_witness :
    plan regT 2 2 = some (1, [2]) ∧
    applyTransition regT [0, 2] 2 =
      some ([0, 2], [Effect.exit 2, Effect.enter 2]) :=
  C5_self_transition regT 2 [0, 2] (by decide)

/-! ### Claim C6: transition to a proper ancestor -/

/-- Claim C6: when the target `dst` is a proper ancestor of the source (its
ancestor path `B` is a proper prefix of the source's chain), every state
strictly deeper than `dst` is exited leaf-first, then `dst` itself is exited
and re-entered with self-transition semantics, and the entry effect of `dst`
appears exactly once in the trace. -/
theorem C6_ancestor_target (reg : Registry) (leaf dst : StateId)
    (chain B rest : List StateId)
    (hA : ancestors reg leaf = some chain)
    (hB : ancestors reg dst = some B)
    (hsplit : chain = B ++ rest) (hne : rest ≠ []) :
    applyTransition reg chain dst =
      some (B, rest.reverse.map Effect.exit ++
        [Effect.exit dst, Effect.enter dst]) ∧
    (rest.reverse.map Effect.exit ++
        [Effect.exit dst, Effect.enter dst]).count (Effect.enter dst) = 1 := by
  have hlast : chain.getLast? = some leaf := ancestors_getLast reg leaf chain hA
  have hBlast : B.getLast? = some dst := ancestors_getLast reg dst B hB
  have hBne : B ≠ [] := ancestors_ne_nil reg dst B hB
  have hBpos : 1 ≤ B.length := by
    cases B with
    | nil => exact absurd rfl hBne
    | cons x xs => simp
  have hpre : B = chain.take B.length := by
    rw [hsplit, List.take_append_of_le_length (le_refl B.length),
      List.take_of_length_le (le_refl B.length)]
  have hk : lcpLen chain B = B.length := lcpLen_of_take_eq B chain hpre
  have hlen : chain.length = B.length + rest.length := by
    rw [hsplit]; simp
  constructor
  · have hplan : plan reg leaf dst = some (chain.length - B.length + 1, [dst]) := by
      rw [plan_eq reg leaf dst chain B hA hB, hk, if_pos rfl]
    rw [applyTransition_eq reg chain leaf dst _ _ hlast hplan]
    have hsub : chain.length - (chain.length - B.length + 1) = B.length - 1 := by
      have hrpos : 1 ≤ rest.length := by
        cases rest with
        | nil => exact absurd rfl hne
        | cons x xs => simp
      omega
    rw [hsub]
    have htake : chain.take (B.length - 1) = B.take (B.length - 1) := by
      rw [hsplit, List.take_append_of_le_length (by omega)]
    have hdrop : chain.drop (B.length - 1) = dst :: rest := by
      rw [hsplit, List.drop_append_of_le_length (by omega),
        drop_pred_of_getLast B dst hBlast]
      rfl
    rw [htake, hdrop, take_pred_append_getLast B dst hBlast]
    simp
  · rw [List.count_append]
    have hzero : (rest.reverse.map Effect.exit).count (Effect.enter dst) = 0 := by
      rw [List.count_eq_zero]
      simp
    rw [hzero]
    simp

/-- Witness for C6 at the fixture: from leaf state3 back up to its parent
state1. -/
theorem C6_ancestor_target_witness :
    applyTransition regT [0, 2] 0 =
      some ([0], ([2] : List StateId).reverse.map Effect.exit ++
        [Effect.exit 0, Effect.enter 0]) ∧
    (([2] : List StateId).reverse.map Effect.exit ++
        [Effect.exit 0, Effect.enter 0]).count (Effect.enter 0) = 1 :=
  C6_ancestor_target regT 2 0 [0, 2] [0] [2] (by decide) (by decide) (by decide)
    (by decide)

/-! ### Claim C3: setStart builds the ancestor chain of the start state -/

/-- Claim C3: when `setStart(id)` succeeds on a not-yet-started machine, the
current leaf is `id`, the Active Chain's identifier sequence equals
`ancestors(id)` (root first), and the effect trace is the entry effects of
that path in root-first construction order. -/
theorem C3_setStart (Ev D : Type) (m m2 : Machine Ev D) (id : StateId)
    (tr : List Effect) (h : setStart m id = .ok (m2, tr)) :
    currentLeafId m2 = some id ∧
    ancestors m.reg id = some m2.chain ∧
    tr = m2.chain.map Effect.enter ∧
    m2.started = true := by
  unfold setStart at h
  by_cases hs : m.started
  · rw [if_pos hs] at h
    exact absurd h (by simp)
  · rw [if_neg hs] at h
    cases hL : ancestors m.reg id with
    | none =>
      rw [hL] at h
      exact absurd h (by simp)
    | some L =>
      rw [hL] at h
      simp only [Except.ok.injEq, Prod.mk.injEq] at h
      obtain ⟨hm2, htr⟩ := h
      subst hm2
      refine ⟨?_, by simp [hL], by simpa using htr.symm, rfl⟩
      unfold currentLeafId
      exact ancestors_getLast m.reg id L hL

/-- Witness for C3 at the fixture: starting the fresh test machine in
state1. -/
theorem C3_setStart_witness :
    currentLeafId ({ mT0 with chain := [0], started := true } : Machine Nat TData) =
      some 0 ∧
    ancestors mT0.reg 0 =
      some ({ mT0 with chain := [0], started := true } : Machine Nat TData).chain ∧
    [Effect.enter 0] =
      ({ mT0 with chain := [0], started := true } :
        Machine Nat TData).chain.map Effect.enter ∧
    ({ mT0 with chain := [0], started := true } : Machine Nat TData).started = true :=
  C3_setStart Nat TData mT0 _ 0 [Effect.enter 0] (by rfl)

/-! ### Claim C4: exits strictly precede entries, leaf-first and root-first -/

/-- In a trace of exits followed by entries, every exit position is strictly
before every entry position. -/
theorem exits_lt_enters (X Y : List StateId) (i j : Nat)
    (hi : i < (X.map Effect.exit ++ Y.map Effect.enter).length)
    (hj : j < (X.map Effect.exit ++ Y.map Effect.enter).length)
    (s t : StateId)
    (hsi : (X.map Effect.exit ++ Y.map Effect.enter).get ⟨i, hi⟩ = Effect.exit s)
    (htj : (X.map Effect.exit ++ Y.map Effect.enter).get ⟨j, hj⟩ = Effect.enter t) :
    i < j := by
  have hix : i < X.length := by
    by_contra hge
    push_neg at hge
    have hge2 : (X.map Effect.exit).length ≤ i := by simpa using hge
    rw [List.get_eq_getElem, List.getElem_append_right hge2] at hsi
    rw [List.getElem_map] at hsi
    exact absurd hsi (by simp)
  have hjx : X.length ≤ j := by
    by_contra hlt
    push_neg at hlt
    have hjx2 : j < (X.map Effect.exit).length := by simpa using hlt
    rw [List.get_eq_getElem, List.getElem_append_left hjx2] at htj
    rw [List.getElem_map] at htj
    exact absurd htj (by simp)
  omega

/-- Claim C4: in every applied transition, the effect trace is the exit
effects of the removed chain suffix in leaf-first (reverse-entry) order
followed by the entry effects of the planner's enter path in root-first
order; consequently every exit effect runs strictly before any entry
effect. -/
theorem C4_exit_before_entry (reg : Registry) (chain : List StateId)
    (dst : StateId) (c2 : List StateId) (tr : List Effect)
    (h : applyTransition reg chain dst = some (c2, tr)) :
    ∃ src ec ep,
      chain.getLast? = some src ∧
      plan reg src dst = some (ec, ep) ∧
      tr = ((chain.drop (chain.length - ec)).reverse).map Effect.exit ++
        ep.map Effect.enter ∧
      ∀ (i j : Nat) (hi : i < tr.length) (hj : j < tr.length) (s t : StateId),
        tr.get ⟨i, hi⟩ = Effect.exit s → tr.get ⟨j, hj⟩ = Effect.enter t →
        i < j := by
  cases hlast : chain.getLast? with
  | none =>
    rw [applyTransition_eq_none reg dst chain hlast] at h
    exact absurd h (by simp)
  | some src =>
    cases hplan : plan reg src dst with
    | none =>
      rw [applyTransition_eq_none_plan reg chain src dst hlast hplan] at h
      exact absurd h (by simp)
    | some pr =>
      obtain ⟨ec, ep⟩ := pr
      rw [applyTransition_eq reg chain src dst ec ep hlast hplan] at h
      simp only [Option.some_inj, Prod.mk.injEq] at h
      refine ⟨src, ec, ep, rfl, hplan, h.2.symm, ?_⟩
      intro i j hi hj s t hsi htj
      have htr := h.2.symm
      subst htr
      exact exits_lt_enters ((chain.drop (chain.length - ec)).reverse) ep
        i j hi hj s t hsi htj

/-- Witness for C4 at the fixture: the transition from leaf state3 up to
state1. -/
theorem C4_exit_before_entry_witness :
    ∃ src ec ep,
      ([0, 2] : List StateId).getLast? = some src ∧
      plan regT src 0 = some (ec, ep) ∧
      [Effect.exit 2, Effect.exit 0, Effect.enter 0] =
        ((([0, 2] : List StateId).drop (([0, 2] : List StateId).length - ec)).reverse).map
          Effect.exit ++ ep.map Effect.enter ∧
      ∀ (i j : Nat)
        (hi : i < ([Effect.exit 2, Effect.exit 0, Effect.enter 0] : List Effect).length)
        (hj : j < ([Effect.exit 2, Effect.exit 0, Effect.enter 0] : List Effect).length)
        (s t : StateId),
        ([Effect.exit 2, Effect.exit 0, Effect.enter 0] : List Effect).get ⟨i, hi⟩ =
          Effect.exit s →
        ([Effect.exit 2, Effect.exit 0, Effect.enter 0] : List Effect).get ⟨j, hj⟩ =
          Effect.enter t →
        i < j :=
  C4_exit_before_entry regT [0, 2] 0 [0]
    [Effect.exit 2, Effect.exit 0, Effect.enter 0] (by decide)

/-! ### Claim C8: failed entry unwinds the partial suffix leaf-first -/

/-- Claim C8: if constructing a state of the entry path fails, every state of
the current entry suffix that was already entered is exited leaf-first before
the error is surfaced. -/
theorem C8_entry_failure_unwind (canEnter : StateId → Bool)
    (good : List StateId) (bad : StateId) (rest : List StateId)
    (hgood : ∀ s ∈ good, canEnter s = true) (hbad : canEnter bad = false) :
    enterChain canEnter (good ++ bad :: rest) =
      (good.map Effect.enter ++ (good.reverse).map Effect.exit, false) := by
  induction good with
  | nil => simp [enterChain, hbad]
  | cons g gs ih =>
    have hg : canEnter g = true := hgood g (by simp)
    have hgs : ∀ s ∈ gs, canEnter s = true := fun s hs => hgood s (by simp [hs])
    rw [List.cons_append]
    unfold enterChain
    rw [if_pos hg, ih hgs]
    simp

/-- Witness for C8: entering the path state1, state3 where state3's
construction fails enters state1 and then exits it again before surfacing
the error. -/
theorem C8_entry_failure_unwind_witness :
    enterChain (fun s => decide (s ≠ 2)) ([0] ++ 2 :: []) =
      (([0] : List StateId).map Effect.enter ++
        (([0] : List StateId).reverse).map Effect.exit, false) :=
  C8_entry_failure_unwind (fun s => decide (s ≠ 2)) [0] 2 [] (by decide) (by decide)

/-! ### Claim C9: machine construction runs no entry effect -/

/-- Claim C9: building the machine registers every declared state but
constructs no StateInstance and runs no entry effect — the Active Chain is
empty and the construction trace is empty — and the first entry effects occur
during `setStart`, whose trace is a nonempty sequence consisting solely of
entry effects. -/
theorem C9_construction_no_effects (Ev D : Type)
    (decls : List (StateId × Option StateId)) (d0 : D)
    (m : Machine Ev D) (tr : List Effect)
    (h : buildFsm Ev decls d0 = .ok (m, tr)) :
    m.chain = [] ∧ tr = [] ∧ currentLeafId m = none ∧
    ∀ (id : StateId) (m2 : Machine Ev D) (tr2 : List Effect),
      setStart m id = .ok (m2, tr2) →
      tr2 ≠ [] ∧ ∀ e ∈ tr2, ∃ s, e = Effect.enter s := by
  unfold buildFsm at h
  cases hr : buildReg [] decls with
  | error e =>
    rw [hr] at h
    exact absurd h (by simp)
  | ok reg =>
    rw [hr] at h
    simp only [Except.ok.injEq, Prod.mk.injEq] at h
    obtain ⟨hm, htr⟩ := h
    subst hm
    refine ⟨rfl, htr.symm, rfl, ?_⟩
    intro id m2 tr2 h2
    unfold setStart at h2
    rw [if_neg (by simp)] at h2
    cases hL : ancestors reg id with
    | none =>
      rw [hL] at h2
      exact absurd h2 (by simp)
    | some L =>
      rw [hL] at h2
      simp only [Except.ok.injEq, Prod.mk.injEq] at h2
      obtain ⟨hm2, htr2⟩ := h2
      have hLne : L ≠ [] := ancestors_ne_nil reg id L hL
      constructor
      · rw [← htr2]
        simpa using hLne
      · intro e he
        rw [← htr2] at he
        simp only [List.mem_map] at he
        obtain ⟨s, _, hes⟩ := he
        exact ⟨s, hes.symm⟩

/-- Witness for C9 at the fixture's state declarations. -/
theorem C9_construction_no_effects_witness :
    mT0.chain = [] ∧ ([] : List Effect) = [] ∧ currentLeafId mT0 = none ∧
    ∀ (id : StateId) (m2 : Machine Nat TData) (tr2 : List Effect),
      setStart mT0 id = .ok (m2, tr2) →
      tr2 ≠ [] ∧ ∀ e ∈ tr2, ∃ s, e = Effect.enter s :=
  C9_construction_no_effects Nat TData [(0, none), (1, none), (2, some 0)]
    mT0.data mT0 [] (by rfl)

/-! ### Claim C10: a transition leaves unwritten user data fields unchanged -/

/-- Running an effect trace whose effects all preserve a projection of the
user data preserves that projection. -/
theorem runEffects_proj_const (D V : Type) (onEnter onExit : StateId → D → D)
    (proj : D → V) :
    ∀ (tr : List Effect) (d : D),
      (∀ e ∈ tr, ∀ x : D, proj (effApply onEnter onExit e x) = proj x) →
      proj (runEffects onEnter onExit tr d) = proj d := by
  intro tr
  induction tr with
  | nil => intro d _; rfl
  | cons e es ih =>
    intro d hpres
    unfold runEffects
    rw [List.foldl_cons]
    have hes : ∀ e2 ∈ es, ∀ x : D, proj (effApply onEnter onExit e2 x) = proj x :=
      fun e2 h2 x => hpres e2 (by simp [h2]) x
    have := ih (effApply onEnter onExit e d) hes
    unfold runEffects at this
    rw [this]
    exact hpres e (by simp) d

/-- Claim C10: for every applied transition, any projection (field) of the
user FSM data that none of the transition's exit or entry effects writes has
the same value after all effects of the transition complete as the value a
handler left there before the transition. -/
theorem C10_transition_data_frame (D V : Type)
    (onEnter onExit : StateId → D → D) (proj : D → V) (reg : Registry)
    (chain : List StateId) (dst : StateId) (c2 : List StateId)
    (tr : List Effect) (d : D)
    (_h : applyTransition reg chain dst = some (c2, tr))
    (hpres : ∀ e ∈ tr, ∀ x : D, proj (effApply onEnter onExit e x) = proj x) :
    proj (runEffects onEnter onExit tr d) = proj d :=
  runEffects_proj_const D V onEnter onExit proj tr d hpres

/-- Witness for C10: a transition whose effects do not write the data leaves
it unchanged. -/
theorem C10_transition_data_frame_witness :
    id (runEffects (fun _ d => d) (fun _ d => d)
      [Effect.exit 2, Effect.exit 0, Effect.enter 0] (5 : Nat)) = id 5 :=
  C10_transition_data_frame Nat Nat (fun _ d => d) (fun _ d => d) id regT
    [0, 2] 0 [0] [Effect.exit 2, Effect.exit 0, Effect.enter 0] 5 (by decide)
    (by intro e he x; cases e <;> rfl)

/-! ### Claim C2: the dispatch walk is a halting leaf-to-root prefix -/

/-- The call sequence of a nonempty walk is its head's id before the rest. -/
theorem walkCalls_cons (Ev D : Type) (p : StateId × HRes Ev D)
    (w : List (StateId × HRes Ev D)) :
    walkCalls (p :: w) = p.1 :: walkCalls w := rfl

/-- Characterization of the ancestor walk: the call records form an initial
segment of the snapshot; every call except the last neither consumed the
event nor requested a transition; and when the walk stopped before the end of
the snapshot, its last call consumed the event or requested a transition. -/
theorem walkAux_spec (Ev D : Type) (hnd : Handler Ev D) (ev : Ev) :
    ∀ (l : List StateId) (d : D),
      walkCalls (walkAux hnd ev l d) = l.take (walkAux hnd ev l d).length ∧
      (∀ p ∈ (walkAux hnd ev l d).dropLast,
        p.2.consumed = false ∧ p.2.trans = none) ∧
      ((walkAux hnd ev l d).length < l.length →
        ∃ p, (walkAux hnd ev l d).getLast? = some p ∧
          (p.2.consumed = true ∨ p.2.trans ≠ none)) := by
  intro l
  induction l with
  | nil =>
    intro d
    exact ⟨rfl, by simp [walkAux], by simp [walkAux]⟩
  | cons s rest ih =>
    intro d
    by_cases hstop : ((hnd s ev d).consumed || (hnd s ev d).trans.isSome) = true
    · have hw : walkAux hnd ev (s :: rest) d = [(s, hnd s ev d)] := by
        unfold walkAux
        rw [if_pos hstop]
      rw [hw]
      refine ⟨by simp [walkCalls], by simp, ?_⟩
      intro _
      refine ⟨(s, hnd s ev d), rfl, ?_⟩
      rcases Bool.or_eq_true_iff.mp hstop with hc | ht
      · exact Or.inl hc
      · exact Or.inr (Option.isSome_iff_ne_none.mp ht)
    · have hst : ((hnd s ev d).consumed || (hnd s ev d).trans.isSome) = false := by
        revert hstop
        cases ((hnd s ev d).consumed || (hnd s ev d).trans.isSome) <;> simp
      have hcf : (hnd s ev d).consumed = false := by
        rcases Bool.or_eq_false_iff.mp hst with ⟨h1, _⟩
        exact h1
      have htf : (hnd s ev d).trans = none := by
        rcases Bool.or_eq_false_iff.mp hst with ⟨_, h2⟩
        exact Option.not_isSome_iff_eq_none.mp (by simp [h2])
      have hw : walkAux hnd ev (s :: rest) d =
          (s, hnd s ev d) :: walkAux hnd ev rest (hnd s ev d).data := by
        simp only [walkAux]
        rw [if_neg (by simp [hst])]
      obtain ⟨ih1, ih2, ih3⟩ := ih (hnd s ev d).data
      rw [hw]
      refine ⟨?_, ?_, ?_⟩
      · rw [walkCalls_cons, List.length_cons, List.take_succ_cons, ih1]
      · cases hw2 : walkAux hnd ev rest (hnd s ev d).data with
        | nil => simp
        | cons q qs =>
          rw [List.dropLast_cons₂]
          intro p hp
          rcases List.mem_cons.mp hp with hps | hpd
          · subst hps
            exact ⟨hcf, htf⟩
          · rw [hw2] at ih2
            exact ih2 p hpd
      · intro hlen
        have hlen2 : (walkAux hnd ev rest (hnd s ev d).data).length < rest.length := by
          simpa using hlen
        obtain ⟨p, hp, hreason⟩ := ih3 hlen2
        cases hw2 : walkAux hnd ev rest (hnd s ev d).data with
        | nil =>
          rw [hw2] at hp
          exact absurd hp (by simp)
        | cons q qs =>
          refine ⟨p, ?_, hreason⟩
          rw [hw2] at hp
          rw [List.getLast?_cons_cons]
          exact hp

/-- The calls reported by `dispatchOne` are exactly the walk's calls. -/
theorem dispatchOne_calls (Ev D : Type) (hnd : Handler Ev D)
    (onEnter onExit : StateId → D → D) (m : Machine Ev D) (ev : Ev) :
    (dispatchOne hnd onEnter onExit m ev).calls =
      walkCalls (walkAux hnd ev m.chain.reverse m.data) := by
  unfold dispatchOne
  cases hT : walkTrans (walkAux hnd ev m.chain.reverse m.data) with
  | none => rfl
  | some dst =>
    simp only [hT]
    cases hA : applyTransition m.reg m.chain dst with
    | none => rfl
    | some p =>
      obtain ⟨c2, tr⟩ := p
      simp only [hA]

/-- Claim C2: for every dispatched event, the handler call sequence is a
contiguous leaf-to-root prefix of the Active Chain snapshot taken at dispatch
start, and the walk stops exactly when a handler returns Consumed, when a
transition has been requested, or when the root handler has run: every call
but the last neither consumed nor requested a transition (so in particular a
transition request halts further ancestor delivery even when the requesting
handler returns NotConsumed), and a walk that stopped before the root had its
last handler consume or request a transition. -/
theorem C2_dispatch_prefix_halting (Ev D : Type) (hnd : Handler Ev D)
    (onEnter onExit : StateId → D → D) (m : Machine Ev D) (ev : Ev) :
    (dispatchOne hnd onEnter onExit m ev).calls =
      m.chain.reverse.take (walkAux hnd ev m.chain.reverse m.data).length ∧
    (∀ p ∈ (walkAux hnd ev m.chain.reverse m.data).dropLast,
      p.2.consumed = false ∧ p.2.trans = none) ∧
    ((walkAux hnd ev m.chain.reverse m.data).length < m.chain.length →
      ∃ p, (walkAux hnd ev m.chain.reverse m.data).getLast? = some p ∧
        (p.2.consumed = true ∨ p.2.trans ≠ none)) := by
  obtain ⟨h1, h2, h3⟩ := walkAux_spec Ev D hnd ev m.chain.reverse m.data
  refine ⟨?_, h2, ?_⟩
  · rw [dispatchOne_calls Ev D hnd onEnter onExit m ev]
    exact h1
  · intro hlen
    exact h3 (by simpa using hlen)

/-! ### Claim C7: the Active Chain stays the ancestor path of its leaf -/

/-- One dispatch preserves the Active Chain invariant and the Registry. -/
theorem dispatchOne_chainOk (Ev D : Type) (hnd : Handler Ev D)
    (onEnter onExit : StateId → D → D) (m : Machine Ev D) (ev : Ev)
    (h : ChainOk m.reg m.chain) :
    ChainOk m.reg (dispatchOne hnd onEnter onExit m ev).m.chain ∧
    (dispatchOne hnd onEnter onExit m ev).m.reg = m.reg := by
  unfold dispatchOne
  split
  · exact ⟨h, rfl⟩
  · rename_i dst hT
    split
    · exact ⟨h, rfl⟩
    · rename_i c2 tr hA
      obtain ⟨leaf, hleaf⟩ := h
      exact ⟨⟨dst, applyTransition_ancestors m.reg m.chain leaf dst c2 tr hleaf hA⟩,
        rfl⟩

/-- Draining the queue preserves the Active Chain invariant and Registry. -/
theorem drain_chainOk (Ev D : Type) (hnd : Handler Ev D)
    (onEnter onExit : StateId → D → D) :
    ∀ (fuel : Nat) (m : Machine Ev D),
      ChainOk m.reg m.chain →
      ChainOk m.reg (drain hnd onEnter onExit fuel m).1.chain ∧
      (drain hnd onEnter onExit fuel m).1.reg = m.reg := by
  intro fuel
  induction fuel with
  | zero => intro m h; exact ⟨h, rfl⟩
  | succ f ih =>
    intro m h
    unfold drain
    cases hq : m.queue with
    | nil => exact ⟨h, rfl⟩
    | cons ev rest =>
      have h1 := dispatchOne_chainOk Ev D hnd onEnter onExit
        { m with queue := rest } ev h
      have h2 := ih (dispatchOne hnd onEnter onExit { m with queue := rest } ev).m
        (by rw [h1.2]; exact h1.1)
      constructor
      · show ChainOk m.reg (drain hnd onEnter onExit f
            (dispatchOne hnd onEnter onExit { m with queue := rest } ev).m).fst.chain
        have h3 := h2.1
        rw [h1.2] at h3
        exact h3
      · show (drain hnd onEnter onExit f
            (dispatchOne hnd onEnter onExit { m with queue := rest } ev).m).fst.reg =
          m.reg
        rw [h2.2, h1.2]

/-- Claim C7: after any `post(event)` on a machine whose Active Chain is the
ancestor path of some leaf, the chain is again the ancestor path of its
current leaf in the Registry (roots first) and contains no duplicate
identifier; the invariant is preserved through every dispatched event and
every applied transition of the drain. -/
theorem C7_chain_invariant (Ev D : Type) (hnd : Handler Ev D)
    (onEnter onExit : StateId → D → D) (fuel : Nat) (m : Machine Ev D)
    (ev : Ev) (h : ChainOk m.reg m.chain) :
    ChainOk m.reg (postEvent hnd onEnter onExit fuel m ev).1.chain ∧
    (∃ leaf, currentLeafId (postEvent hnd onEnter onExit fuel m ev).1 = some leaf ∧
      ancestors m.reg leaf = some (postEvent hnd onEnter onExit fuel m ev).1.chain) ∧
    (postEvent hnd onEnter onExit fuel m ev).1.chain.Nodup := by
  have hd := drain_chainOk Ev D hnd onEnter onExit fuel
    { m with queue := m.queue ++ [ev] } h
  unfold postEvent
  obtain ⟨⟨leaf, hleaf⟩, hreg⟩ := hd
  refine ⟨⟨leaf, hleaf⟩, ⟨leaf, ?_, hleaf⟩, ?_⟩
  · unfold currentLeafId
    exact ancestors_getLast _ leaf _ hleaf
  · exact ancestors_nodup _ leaf _ hleaf

/-- Witness for C7 at the fixture: posting testEvent3 from state1 moves the
machine to the chain state1, state3, which is the ancestor path of state3 and
duplicate-free. -/
theorem C7_chain_invariant_witness :
    ChainOk mT1.reg (postEvent hndT onEnterT onExitT 4 mT1 3).1.chain ∧
    (∃ leaf, currentLeafId (postEvent hndT onEnterT onExitT 4 mT1 3).1 = some leaf ∧
      ancestors mT1.reg leaf = some (postEvent hndT onEnterT onExitT 4 mT1 3).1.chain) ∧
    (postEvent hndT onEnterT onExitT 4 mT1 3).1.chain.Nodup :=
  C7_chain_invariant Nat TData hndT onEnterT onExitT 4 mT1 3 ⟨0, by decide⟩
